import Mathlib

/-!
Shallow embedding of the better-portal browser extension's theme lifecycle
manager: the page classifier, theme applicator (content script), remote
catalog fetcher, theme downloader, download tracking, and eviction policy.
Network fetches and the bundled-asset fetch are modelled as oracle
functions passed in as parameters; the extension-local key-value store is
an association list threaded through each operation.
-/

namespace BetterPortal

/-! ### JavaScript string primitive semantics -/

/-- JS `String.prototype.includes`: substring containment. -/
def jsIncludes (s sub : String) : Bool := decide (sub.data <:+: s.data)

/-- JS `String.prototype.endsWith`. -/
def jsEndsWith (s suf : String) : Bool := decide (suf.data <:+ s.data)

/-- JS `String.prototype.toLowerCase` (ASCII). -/
def jsToLower (s : String) : String := ⟨s.data.map Char.toLower⟩

/-- JS `String.prototype.trim`: strip leading and trailing whitespace. -/
def jsTrim (s : String) : String :=
  ⟨((s.data.dropWhile Char.isWhitespace).reverse.dropWhile Char.isWhitespace).reverse⟩

/-- JS `word.charAt(0).toUpperCase() + word.slice(1)`. -/
def jsCapitalize (w : String) : String :=
  match w.data with
  | [] => ""
  | c :: cs => ⟨c.toUpper :: cs⟩

/-- JS `String.prototype.split("-")` on the hyphen character. -/
def jsSplitDashAux : List Char → List Char → List String
  | [], acc => [⟨acc.reverse⟩]
  | c :: cs, acc =>
    if c = '-' then ⟨acc.reverse⟩ :: jsSplitDashAux cs []
    else jsSplitDashAux cs (c :: acc)

def jsSplitDash (s : String) : List String := jsSplitDashAux s.data []

/-! ### Data model -/

/-- One catalog entry, as built by `fetchThemesList`:
`name` is the display name, `files` maps each required category to the
remote file name discovered in the theme's directory listing, `path` is
the remote base path of the theme directory. -/
structure ThemeConfig where
  name : String
  files : List (String × String)
  path : String
deriving DecidableEq

/-- The catalog: theme id to its configuration, in discovery order. -/
abbrev Catalog := List (String × ThemeConfig)

/-- A value held in `browserAPI.storage.local`: the program stores CSS
text and ISO timestamps as strings and the catalog as a structured
object under the key `themes_config`. -/
inductive Val where
  | str (s : String)
  | catalog (c : Catalog)
deriving DecidableEq

/-- The extension-local key-value store. -/
abbrev Store := List (String × Val)

def Store.get : Store → String → Option Val
  | [], _ => none
  | (k, v) :: rest, key => if k = key then some v else Store.get rest key

def Store.removeKey : Store → String → Store
  | [], _ => []
  | (k, v) :: rest, key =>
    if k = key then Store.removeKey rest key else (k, v) :: Store.removeKey rest key

/-- `browserAPI.storage.local.remove(keys)`. -/
def Store.removeKeys : Store → List String → Store
  | [], _ => []
  | (k, v) :: rest, keys =>
    if k ∈ keys then Store.removeKeys rest keys else (k, v) :: Store.removeKeys rest keys

/-- `browserAPI.storage.local.set({ [key]: v })`. -/
def Store.set (st : Store) (key : String) (v : Val) : Store :=
  (key, v) :: st.removeKey key

/-- JS truthiness of a value read from the store (`undefined`, `""` are
falsy; any object is truthy). -/
def jsTruthyVal : Option Val → Bool
  | none => false
  | some (Val.str s) => !(s == "")
  | some (Val.catalog _) => true

/-- The string JS obtains when using a stored value as text. -/
def valText : Val → String
  | Val.str s => s
  | Val.catalog _ => "[object Object]"

/-- One entry of a GitHub contents-API directory listing. -/
structure RemoteEntry where
  name : String
  type : String
  url : String
deriving DecidableEq

/-- Outcome of one network fetch: either a failure (network error or
non-success HTTP status) or a success with the response body. -/
inductive FetchOutcome where
  | failure
  | success (body : String)

/-- A `<style>` element in the page: `themeAttr` is the value of the
`data-theme-style` attribute when present. -/
structure StyleEl where
  themeAttr : Option String
  content : String
deriving DecidableEq

/-! ### Compiled-in constants (from the popup script) -/

def REPO_OWNER : String := "0xAadit"
def REPO_NAME : String := "better-portal"
def BRANCH : String := "main"
def THEMES_BASE_PATH : String := "themes"
def REQUIRED_THEME_FILES : List String := ["home", "assignments", "extras"]

/-! ### Page classifier (content script `getPageType`) -/

def getPageType (url : String) : Option String :=
  if jsIncludes url "student_dashboard" then some "home"
  else if jsIncludes url "courses" then some "assignments"
  else if jsIncludes url "student_documents" || jsIncludes url "exam_cities_and_hall_ticket" ||
      jsIncludes url "student_certificates" || jsIncludes url "student_courses" then
    some "extras"
  else none

/-! ### Theme applicator (content script `applyTheme` / `injectStyle`) -/

/-- `injectStyle(css, themeName)`: append a `<style>` element carrying the
`data-theme-style` marker to the document. -/
def injectStyle (doc : List StyleEl) (css themeName : String) : List StyleEl :=
  doc ++ [{ themeAttr := some themeName, content := css }]

/-- The packaged fallback path `themes/{theme}/{theme}-{pageType}.css`. -/
def fallbackUrl (theme pageType : String) : String :=
  "themes/" ++ theme ++ "/" ++ theme ++ "-" ++ pageType ++ ".css"

/-- The fallback branch of `applyTheme`: fetch the packaged asset and
inject it if the fetch succeeds. -/
def applyFallback (theme pageType : String) (fallbackFetch : String → Option String)
    (doc : List StyleEl) : List StyleEl :=
  match fallbackFetch (fallbackUrl theme pageType) with
  | some css => injectStyle doc css theme
  | none => doc

/-- `applyTheme(theme)`: remove every existing theme-managed style, then
resolve and inject CSS for the current page unless the theme is
`"default"`.  `fallbackFetch` models `fetch` of the packaged asset URL
(`none` = network error or non-ok response). -/
def applyTheme (theme url : String) (st : Store) (fallbackFetch : String → Option String)
    (doc : List StyleEl) : List StyleEl :=
  let cleaned := doc.filter (fun e => e.themeAttr == none)
  if theme = "default" then cleaned
  else
    match getPageType url with
    | none => cleaned
    | some pageType =>
      let storageKey := theme ++ "-" ++ pageType
      match st.get storageKey with
      | some (Val.str css) =>
        if css = "" then applyFallback theme pageType fallbackFetch cleaned
        else injectStyle cleaned css theme
      | some (Val.catalog c) => injectStyle cleaned (valText (Val.catalog c)) theme
      | none => applyFallback theme pageType fallbackFetch cleaned

/-- Number of theme-managed style elements in the document. -/
def themeStyleCount (doc : List StyleEl) : Nat :=
  (doc.filter (fun e => e.themeAttr.isSome)).length

/-! ### Remote catalog fetcher (`fetchThemesList`) -/

/-- The file-matching test of the catalog refresh:
`f.name.toLowerCase().includes(requiredFile) && f.name.endsWith('.css')`. -/
def isMatchingCss (cat : String) (f : RemoteEntry) : Bool :=
  jsIncludes (jsToLower f.name) cat && jsEndsWith f.name ".css"

/-- `themeFiles.find(...)?.name`: first listed entry matching a category. -/
def findCssFile (files : List RemoteEntry) (cat : String) : Option String :=
  (files.find? (isMatchingCss cat)).map (fun f => f.name)

/-- The per-directory validation loop: one file name per required
category, or `none` if some required category has no matching file. -/
def buildCssFilesAux (files : List RemoteEntry) : List String → Option (List (String × String))
  | [] => some []
  | c :: cs =>
    match findCssFile files c with
    | none => none
    | some n => (buildCssFilesAux files cs).map (fun rest => (c, n) :: rest)

def buildCssFiles (files : List RemoteEntry) : Option (List (String × String)) :=
  buildCssFilesAux files REQUIRED_THEME_FILES

/-- `themeName.split('-').map(capitalize).join(' ')`. -/
def displayName (tid : String) : String :=
  String.intercalate " " ((jsSplitDash tid).map jsCapitalize)

def mkThemeConfig (tid : String) (files : List (String × String)) : ThemeConfig :=
  { name := displayName tid, files := files, path := THEMES_BASE_PATH ++ "/" ++ tid }

/-- The directory loop of `fetchThemesList`.  `fileOracle` models
`fetch(dir.url).then(r => r.json())`; `none` means that fetch rejected or
its body failed to parse, which aborts the whole refresh. -/
def processDirs (fileOracle : String → Option (List RemoteEntry)) :
    List RemoteEntry → Option Catalog
  | [] => some []
  | d :: rest =>
    if d.type = "dir" then
      match fileOracle d.url with
      | none => none
      | some files =>
        match buildCssFiles files with
        | none => processDirs fileOracle rest
        | some cssFiles =>
          (processDirs fileOracle rest).map
            (fun c => (d.name, mkThemeConfig d.name cssFiles) :: c)
    else processDirs fileOracle rest

/-- `themes_config || {}`: the last persisted catalog, or empty. -/
def cachedCatalog (st : Store) : Catalog :=
  match st.get "themes_config" with
  | some (Val.catalog c) => c
  | _ => []

/-- `fetchThemesList()`.  `dirResult` models the themes-directory listing
fetch (`none` = network failure, non-ok status, or JSON parse failure);
`now` is the current ISO timestamp.  Returns the catalog together with
the updated store. -/
def fetchThemesList (dirResult : Option (List RemoteEntry))
    (fileOracle : String → Option (List RemoteEntry)) (now : String) (st : Store) :
    Catalog × Store :=
  match dirResult with
  | none => (cachedCatalog st, st)
  | some dirs =>
    match processDirs fileOracle dirs with
    | none => (cachedCatalog st, st)
    | some configs =>
      ((configs, (st.set "themes_config" (Val.catalog configs)).set
        "themes_config_updated" (Val.str now)))

/-! ### Theme downloader -/

/-- `buildGitHubUrl(themeName, fileType)`: hardcoded raw-content URL with
the file name pattern `{themeName}-theme-{fileType}.css`. -/
def buildGitHubUrl (themeName fileType : String) : String :=
  let fileName := themeName ++ "-theme-" ++ fileType ++ ".css"
  "https://raw.githubusercontent.com/" ++ REPO_OWNER ++ "/" ++ REPO_NAME ++ "/" ++ BRANCH ++
    "/themes/" ++ themeName ++ "/" ++ fileName

/-- Validation applied to a category fetch inside `downloadTheme`:
non-ok response, empty body, or trimmed body shorter than 10 characters
all reject; otherwise the body is the CSS to store. -/
def cssFetchResult : FetchOutcome → Option String
  | FetchOutcome.failure => none
  | FetchOutcome.success body =>
    if body = "" ∨ (jsTrim body).length < 10 then none else some body

/-- `DOWNLOADED_THEMES.add(tid)` (JS `Set` keeps insertion order). -/
def addDl (dl : List String) (tid : String) : List String :=
  if tid ∈ dl then dl else dl ++ [tid]

/-- `isThemeDownloaded(themeId)`: all required per-category CSS keys
present and non-empty. -/
def isThemeDownloaded (st : Store) (tid : String) : Bool :=
  REQUIRED_THEME_FILES.all (fun ft =>
    match st.get (tid ++ "-" ++ ft) with
    | some (Val.str s) => decide (0 < s.length)
    | some (Val.catalog _) => false
    | none => false)

/-- The per-category outcomes of a download: each required category
paired with the validated CSS its fetch produced (or `none`). -/
def downloadResults (tid : String) (fetch : String → FetchOutcome) :
    List (String × Option String) :=
  REQUIRED_THEME_FILES.map (fun ft => (ft, cssFetchResult (fetch (buildGitHubUrl tid ft))))

/-- The storage effect of the per-category download promises: every
category whose fetch passed validation has its CSS written under
`{themeId}-{fileType}` (this happens whether or not some other category
failed). -/
def storeResults (tid : String) : Store → List (String × Option String) → Store
  | st, [] => st
  | st, (ft, some css) :: rest => storeResults tid (st.set (tid ++ "-" ++ ft) (Val.str css)) rest
  | st, (_, none) :: rest => storeResults tid st rest

/-- `downloadTheme(themeId)`.  Each category fetch that passes validation
stores its CSS; the `{themeId}_downloaded` timestamp is written only when
every category succeeded, and the returned flag reports overall success.
A theme id absent from the in-memory catalog fails immediately. -/
def downloadTheme (config : Catalog) (tid : String) (fetch : String → FetchOutcome)
    (ts : String) (st : Store) (dl : List String) : Bool × Store × List String :=
  match List.lookup tid config with
  | none => (false, st, dl)
  | some _ =>
    let results := downloadResults tid fetch
    let st1 := storeResults tid st results
    if results.all (fun p => p.2.isSome) then
      (true, st1.set (tid ++ "_downloaded") (Val.str ts), addDl dl tid)
    else (false, st1, dl)

/-! ### Eviction policy (`removeTheme` / `cleanupUnusedThemes`) -/

/-- `removeTheme(themeId)`: refuse to remove the active theme; otherwise
delete the three CSS keys and the download timestamp and drop the theme
from the downloaded set. -/
def removeTheme (st : Store) (tid : String) (dl : List String) : Bool × Store × List String :=
  if st.get "theme" = some (Val.str tid) then (false, st, dl)
  else
    let keysToRemove := REQUIRED_THEME_FILES.map (fun ft => tid ++ "-" ++ ft) ++
      [tid ++ "_downloaded"]
    (true, st.removeKeys keysToRemove, dl.erase tid)

/-- The active theme as a string, when the `theme` key holds one. -/
def activeTheme (st : Store) : Option String :=
  match st.get "theme" with
  | some (Val.str s) => some s
  | _ => none

/-- The download timestamps collected by the cleanup: downloaded themes
whose `{tid}_downloaded` key holds a truthy value, valued through
`new Date(...)` (modelled by `dateVal`). -/
def downloadInfo (st : Store) (dateVal : Val → Int) (dl : List String) : List (String × Int) :=
  dl.filterMap (fun tid =>
    match st.get (tid ++ "_downloaded") with
    | some v => if jsTruthyVal (some v) then some (tid, dateVal v) else none
    | none => none)

/-- Insertion step of the newest-first sort (`(b, a) => info[b] - info[a]`);
stable like JS `Array.prototype.sort`: a theme listed earlier stays ahead
of later themes with an equal timestamp. -/
def insertDesc (x : String × Int) : List (String × Int) → List (String × Int)
  | [] => [x]
  | y :: ys => if x.2 < y.2 then y :: insertDesc x ys else x :: y :: ys

def sortDesc : List (String × Int) → List (String × Int)
  | [] => []
  | x :: xs => insertDesc x (sortDesc xs)

/-- The retain loop: walk the sorted list and keep up to `k` theme ids
other than the active one. -/
def topK (active : Option String) : List String → Nat → List String
  | [], _ => []
  | _ :: _, 0 => []
  | t :: ts, Nat.succ k =>
    if some t = active then topK active ts (Nat.succ k) else t :: topK active ts k

/-- The theme ids the cleanup retains besides the active theme. -/
def keptRecent (dateVal : Val → Int) (st : Store) (dl : List String) : List String :=
  topK (activeTheme st) ((sortDesc (downloadInfo st dateVal dl)).map (fun p => p.1)) 2

/-- `cleanupUnusedThemes()`: keep the active theme plus the two most
recently downloaded other themes; remove every other downloaded theme. -/
def cleanupUnusedThemes (dateVal : Val → Int) (st : Store) (dl : List String) :
    Store × List String :=
  let active := activeTheme st
  let keep := keptRecent dateVal st dl
  dl.foldl
    (fun acc tid =>
      if some tid = active ∨ tid ∈ keep then acc
      else
        let r := removeTheme acc.1 tid acc.2
        (r.2.1, r.2.2))
    (st, dl)

/-- The active theme as a (zero- or one-element) list. -/
def activeList (st : Store) : List String :=
  match activeTheme st with
  | some a => [a]
  | none => []

/-! ### Program operations and reachable states -/

/-- The store-mutating operations of the program: a theme download (with
the in-memory catalog, the network oracle and the clock as data), a
single theme removal, the cleanup pass, activating a theme from the
popup, a catalog refresh, and the popup's sync of the downloaded-themes
set from storage. -/
inductive Op where
  | download (config : Catalog) (tid : String) (fetch : String → FetchOutcome) (ts : String)
  | remove (tid : String)
  | cleanup (dateVal : Val → Int)
  | setTheme (tid : String)
  | refresh (dirResult : Option (List RemoteEntry))
      (fileOracle : String → Option (List RemoteEntry)) (now : String)
  | syncDl (tids : List String)

/-- Program state: the persistent store and the in-memory
`DOWNLOADED_THEMES` set. -/
structure PState where
  store : Store
  dl : List String
deriving DecidableEq

def initState : PState := ⟨[], []⟩

def applyOp (s : PState) : Op → PState
  | Op.download config tid fetch ts =>
    let r := downloadTheme config tid fetch ts s.store s.dl
    ⟨r.2.1, r.2.2⟩
  | Op.remove tid =>
    let r := removeTheme s.store tid s.dl
    ⟨r.2.1, r.2.2⟩
  | Op.cleanup dateVal =>
    let r := cleanupUnusedThemes dateVal s.store s.dl
    ⟨r.1, r.2⟩
  | Op.setTheme tid => ⟨s.store.set "theme" (Val.str tid), s.dl⟩
  | Op.refresh dirResult fileOracle now =>
    ⟨(fetchThemesList dirResult fileOracle now s.store).2, s.dl⟩
  | Op.syncDl tids => ⟨s.store, tids.foldl addDl s.dl⟩

/-- The state after running a sequence of operations from the initial
(empty) state. -/
def runOps (ops : List Op) : PState := ops.foldl applyOp initState

/-! ### Spec-side definition for the asset-URL refinement check -/

/-- Modelled from the spec: the remote asset URL for a category, "built
from `remotePath` + file name", i.e. the raw-content base joined with the
catalog entry's `remotePath` and the file name recorded for the category
in its `categoryFiles` mapping. -/
def specAssetUrl (cfg : ThemeConfig) (cat : String) : Option String :=
  (List.lookup cat cfg.files).map
    (fun n => "https://raw.githubusercontent.com/" ++ REPO_OWNER ++ "/" ++ REPO_NAME ++ "/" ++
      BRANCH ++ "/" ++ cfg.path ++ "/" ++ n)

/-- Concrete catalog files for the URL-scheme check: the catalog records
a custom file name for the `home` category. -/
def c3files : List (String × String) :=
  [("home", "customname.css"), ("assignments", "fm-theme-assignments.css"),
   ("extras", "fm-theme-extras.css")]

def c3cfg : ThemeConfig := mkThemeConfig "fm" c3files

/-- A network in which exactly the URLs recorded in the catalog entry
(`remotePath` + `categoryFiles` name) resolve. -/
def c3fetch : String → FetchOutcome := fun url =>
  if some url = specAssetUrl c3cfg "home" ∨ some url = specAssetUrl c3cfg "assignments" ∨
      some url = specAssetUrl c3cfg "extras"
  then FetchOutcome.success "samplecssbodytextbb" else FetchOutcome.failure

/-- Eviction counterexample scenario: active theme `a` has no Download
Record; `b` and `c` are tracked and downloaded; theme `x` is fully
downloaded in the store with the oldest Download Record but absent from
the in-memory downloaded set (downloaded in an earlier session and since
dropped from the remote catalog, so the popup never syncs it). -/
def c4store : Store :=
  [("theme", Val.str "a"),
   ("x_downloaded", Val.str "1"), ("b_downloaded", Val.str "22"),
   ("c_downloaded", Val.str "333"),
   ("a-home", Val.str "y"), ("a-assignments", Val.str "y"), ("a-extras", Val.str "y"),
   ("b-home", Val.str "y"), ("b-assignments", Val.str "y"), ("b-extras", Val.str "y"),
   ("c-home", Val.str "y"), ("c-assignments", Val.str "y"), ("c-extras", Val.str "y"),
   ("x-home", Val.str "y"), ("x-assignments", Val.str "y"), ("x-extras", Val.str "y")]

def c4dl : List String := ["a", "b", "c"]

def c4dateVal : Val → Int
  | Val.str s => (s.data.length : Int)
  | Val.catalog _ => 0

/-! ## String helper lemmas -/

theorem str_empty_append (s : String) : "" ++ s = s :=
  String.ext (List.nil_append s.data)

theorem str_append_cancel_right {t u s : String} (h : t ++ s = u ++ s) : t = u := by
  have hd : t.data ++ s.data = u.data ++ s.data := by
    have h' := congrArg String.data h
    simpa [String.data_append] using h'
  exact String.ext (List.append_cancel_right hd)

theorem str_append_cancel_left {t u s : String} (h : s ++ t = s ++ u) : t = u := by
  have hd : s.data ++ t.data = s.data ++ u.data := by
    have h' := congrArg String.data h
    simpa [String.data_append] using h'
  exact String.ext (List.append_cancel_left hd)

theorem str_append_ne {t u a b : String}
    (hab : ¬ a.data <:+ b.data) (hba : ¬ b.data <:+ a.data) : t ++ a ≠ u ++ b := by
  intro h
  have hd : t.data ++ a.data = u.data ++ b.data := by
    have h' := congrArg String.data h
    simpa [String.data_append] using h'
  have h1 : a.data <:+ u.data ++ b.data := hd ▸ List.suffix_append t.data a.data
  have h2 : b.data <:+ u.data ++ b.data := List.suffix_append u.data b.data
  rcases List.suffix_or_suffix_of_suffix h1 h2 with h3 | h3
  · exact hab h3
  · exact hba h3

theorem str_append_ne_lit {t a b : String}
    (hab : ¬ a.data <:+ b.data) (hba : ¬ b.data <:+ a.data) : t ++ a ≠ b := fun h =>
  @str_append_ne t "" a b hab hba (h.trans (str_empty_append b).symm)

/-! ## Storage-key disjointness -/

theorem mem_required_cases {c : String} (hc : c ∈ REQUIRED_THEME_FILES) :
    c = "home" ∨ c = "assignments" ∨ c = "extras" := by
  simpa [REQUIRED_THEME_FILES] using hc

theorem cssKey_ne_tsKey {t u c : String} (hc : c ∈ REQUIRED_THEME_FILES) :
    t ++ "-" ++ c ≠ u ++ "_downloaded" := by
  rcases mem_required_cases hc with h | h | h <;> subst h <;> intro h <;>
    rw [String.append_assoc] at h <;> exact str_append_ne (by decide) (by decide) h

theorem cssKey_inj {t u c c' : String} (hc : c ∈ REQUIRED_THEME_FILES)
    (hc' : c' ∈ REQUIRED_THEME_FILES) (h : t ++ "-" ++ c = u ++ "-" ++ c') :
    t = u ∧ c = c' := by
  rw [String.append_assoc, String.append_assoc] at h
  rcases mem_required_cases hc with h1 | h1 | h1 <;>
    rcases mem_required_cases hc' with h2 | h2 | h2 <;> subst h1 <;> subst h2 <;>
    first
      | exact ⟨str_append_cancel_right h, rfl⟩
      | exact absurd h (str_append_ne (by decide) (by decide))

theorem tsKey_inj {t u : String} (h : t ++ "_downloaded" = u ++ "_downloaded") : t = u :=
  str_append_cancel_right h

theorem cssKey_ne_reserved {t c : String} (hc : c ∈ REQUIRED_THEME_FILES) {k : String}
    (hk : k = "theme" ∨ k = "themes_config" ∨ k = "themes_config_updated") :
    t ++ "-" ++ c ≠ k := by
  rcases mem_required_cases hc with h | h | h <;> subst h <;>
    rcases hk with h' | h' | h' <;> subst h' <;> intro h <;>
    rw [String.append_assoc] at h <;> exact str_append_ne_lit (by decide) (by decide) h

theorem tsKey_ne_reserved {t : String} {k : String}
    (hk : k = "theme" ∨ k = "themes_config" ∨ k = "themes_config_updated") :
    t ++ "_downloaded" ≠ k := by
  rcases hk with h' | h' | h' <;> subst h' <;> intro h <;>
    exact str_append_ne_lit (by decide) (by decide) h

/-! ## Store lemmas -/

theorem get_set_self (st : Store) (k : String) (v : Val) : (st.set k v).get k = some v := by
  simp [Store.set, Store.get]

theorem get_removeKey_ne (st : Store) {k k' : String} (h : k' ≠ k) :
    (st.removeKey k).get k' = st.get k' := by
  induction st with
  | nil => rfl
  | cons p rest ih =>
    obtain ⟨a, v⟩ := p
    by_cases hak : a = k
    · simp [Store.removeKey, hak, Store.get, Ne.symm h, ih]
    · by_cases hak' : a = k'
      · subst hak'
        simp [Store.removeKey, hak, Store.get]
      · simp [Store.removeKey, hak, Store.get, hak', ih]

theorem get_set_ne (st : Store) {k k' : String} (v : Val) (h : k' ≠ k) :
    (st.set k v).get k' = st.get k' := by
  have hne : k ≠ k' := fun h' => h h'.symm
  simp [Store.set, Store.get, hne, get_removeKey_ne st h]

theorem get_removeKeys_mem (st : Store) {ks : List String} {k : String} (h : k ∈ ks) :
    (st.removeKeys ks).get k = none := by
  induction st with
  | nil => rfl
  | cons p rest ih =>
    obtain ⟨a, v⟩ := p
    by_cases hak : a ∈ ks
    · simp [Store.removeKeys, hak, ih]
    · have hne : a ≠ k := fun h' => hak (h' ▸ h)
      simp [Store.removeKeys, hak, Store.get, hne, ih]

theorem get_removeKeys_not_mem (st : Store) {ks : List String} {k : String} (h : k ∉ ks) :
    (st.removeKeys ks).get k = st.get k := by
  induction st with
  | nil => rfl
  | cons p rest ih =>
    obtain ⟨a, v⟩ := p
    by_cases hak : a ∈ ks
    · have hne : a ≠ k := fun h' => h (h' ▸ hak)
      simp [Store.removeKeys, hak, Store.get, hne, ih]
    · by_cases hak' : a = k
      · subst hak'
        simp [Store.removeKeys, hak, Store.get, h]
      · simp [Store.removeKeys, hak, Store.get, hak', ih]

theorem get_mem_keys {st : Store} {k : String} {v : Val} (h : st.get k = some v) :
    ∃ p ∈ st, p.1 = k := by
  induction st with
  | nil => simp [Store.get] at h
  | cons p rest ih =>
    obtain ⟨a, w⟩ := p
    by_cases hak : a = k
    · exact ⟨(a, w), List.mem_cons_self _ _, hak⟩
    · simp [Store.get, hak] at h
      obtain ⟨q, hq, hqk⟩ := ih h
      exact ⟨q, List.mem_cons_of_mem _ hq, hqk⟩

/-! ## C10: the page classifier -/

/-- C10: `getPageType` is a total deterministic function of the URL with
first-match precedence: a URL containing `student_dashboard` classifies
as `home` (even if it also contains `courses`); otherwise one containing
`courses` classifies as `assignments`; otherwise one containing any of
`student_documents`, `exam_cities_and_hall_ticket`,
`student_certificates` or `student_courses` classifies as `extras`;
otherwise the classification is `none`. -/
theorem getPageType_spec (url : String) :
    (jsIncludes url "student_dashboard" = true → getPageType url = some "home") ∧
    (jsIncludes url "student_dashboard" = false → jsIncludes url "courses" = true →
      getPageType url = some "assignments") ∧
    (jsIncludes url "student_dashboard" = false → jsIncludes url "courses" = false →
      (jsIncludes url "student_documents" || jsIncludes url "exam_cities_and_hall_ticket" ||
        jsIncludes url "student_certificates" || jsIncludes url "student_courses") = true →
      getPageType url = some "extras") ∧
    (jsIncludes url "student_dashboard" = false → jsIncludes url "courses" = false →
      (jsIncludes url "student_documents" || jsIncludes url "exam_cities_and_hall_ticket" ||
        jsIncludes url "student_certificates" || jsIncludes url "student_courses") = false →
      getPageType url = none) ∧
    (jsIncludes url "student_dashboard" = true → jsIncludes url "courses" = true →
      getPageType url = some "home") := by
  refine ⟨?_, ?_, ?_, ?_, ?_⟩ <;> intros <;> simp [getPageType, *]

/-- Witness for C10 at a concrete URL containing both `student_dashboard`
and `courses`. -/
theorem getPageType_spec_w :
    getPageType "https://portal.example.org/courses/student_dashboard" = some "home" :=
  (getPageType_spec "https://portal.example.org/courses/student_dashboard").2.2.2.2
    (by decide) (by decide)

/-! ## Applicator helper lemmas -/

theorem filter_tagged_cleaned (doc : List StyleEl) :
    (doc.filter (fun e => e.themeAttr == none)).filter (fun e => e.themeAttr.isSome) = [] := by
  induction doc with
  | nil => rfl
  | cons e rest ih =>
    cases h : e.themeAttr <;> simp [List.filter, h, ih]

theorem count_cleaned (doc : List StyleEl) :
    themeStyleCount (doc.filter (fun e => e.themeAttr == none)) = 0 := by
  unfold themeStyleCount
  rw [filter_tagged_cleaned]
  rfl

theorem count_inject (doc : List StyleEl) (css t : String) :
    themeStyleCount (injectStyle doc css t) = themeStyleCount doc + 1 := by
  unfold themeStyleCount injectStyle
  rw [List.filter_append, List.length_append]
  simp [List.filter]

/-- Every completed `applyTheme` run produces either the cleaned document
(no theme-managed style at all) or the cleaned document plus exactly one
injected style element. -/
theorem applyTheme_cases (theme url : String) (st : Store)
    (fallbackFetch : String → Option String) (doc : List StyleEl) :
    applyTheme theme url st fallbackFetch doc = doc.filter (fun e => e.themeAttr == none) ∨
    ∃ c, applyTheme theme url st fallbackFetch doc =
      injectStyle (doc.filter (fun e => e.themeAttr == none)) c theme := by
  unfold applyTheme applyFallback
  by_cases hd : theme = "default"
  · simp [hd]
  · simp only [hd, if_false]
    cases hpt : getPageType url with
    | none => exact Or.inl rfl
    | some pageType =>
      dsimp only
      cases hget : st.get (theme ++ "-" ++ pageType) with
      | none =>
        dsimp only
        cases hf : fallbackFetch (fallbackUrl theme pageType) with
        | none => exact Or.inl rfl
        | some c => exact Or.inr ⟨c, rfl⟩
      | some v =>
        cases v with
        | str css =>
          dsimp only
          by_cases hcss : css = ""
          · subst hcss
            rw [if_pos rfl]
            cases hf : fallbackFetch (fallbackUrl theme pageType) with
            | none => exact Or.inl rfl
            | some c => exact Or.inr ⟨c, rfl⟩
          · rw [if_neg hcss]
            exact Or.inr ⟨css, rfl⟩
        | catalog c => exact Or.inr ⟨valText (Val.catalog c), rfl⟩

/-- The cache-hit path of `applyTheme`: a non-default theme, a classified
page, and a non-empty stored CSS value lead to exactly one injection of
that value. -/
theorem applyTheme_hit (theme url : String) (st : Store)
    (fallbackFetch : String → Option String) (doc : List StyleEl) (pageType css : String)
    (hdef : theme ≠ "default") (hpt : getPageType url = some pageType)
    (hcss : st.get (theme ++ "-" ++ pageType) = some (Val.str css)) (hne : css ≠ "") :
    applyTheme theme url st fallbackFetch doc =
      injectStyle (doc.filter (fun e => e.themeAttr == none)) css theme := by
  unfold applyTheme
  rw [if_neg hdef, hpt]
  dsimp only
  rw [hcss]
  dsimp only
  rw [if_neg hne]

/-! ## C8: storage-to-injection round trip -/

/-- C8: when the Applicator resolves the stored key
`{theme}-{pageType}` to a (non-empty) CSS text, the injected style
element's content is byte-identical to the stored text — the final
document is the cleaned document plus exactly that element, and the only
theme-managed element carries exactly the stored CSS. -/
theorem applyTheme_roundtrip (theme url : String) (st : Store)
    (fallbackFetch : String → Option String) (doc : List StyleEl) (pageType css : String)
    (hdef : theme ≠ "default") (hpt : getPageType url = some pageType)
    (hcss : st.get (theme ++ "-" ++ pageType) = some (Val.str css)) (hne : css ≠ "") :
    applyTheme theme url st fallbackFetch doc =
      (doc.filter (fun e => e.themeAttr == none)) ++
        [{ themeAttr := some theme, content := css }] ∧
    (applyTheme theme url st fallbackFetch doc).filter (fun e => e.themeAttr.isSome) =
      [{ themeAttr := some theme, content := css }] := by
  rw [applyTheme_hit theme url st fallbackFetch doc pageType css hdef hpt hcss hne]
  constructor
  · rfl
  · unfold injectStyle
    rw [List.filter_append, filter_tagged_cleaned]
    simp [List.filter]

/-- Witness for C8: a concrete store holding `dark-theme-home`, applied on
a dashboard page, injects exactly the stored text. -/
theorem applyTheme_roundtrip_w :
    applyTheme "dark-theme" "https://p/student_dashboard"
        [("dark-theme-home", Val.str "css1")] (fun _ => none) [] =
      [{ themeAttr := some "dark-theme", content := "css1" }] := by
  have h := applyTheme_roundtrip "dark-theme" "https://p/student_dashboard"
    [("dark-theme-home", Val.str "css1")] (fun _ => none) [] "home" "css1"
    (by decide) (by decide) (by decide) (by decide)
  simpa using h.1

/-! ## C9: at most one theme-managed style element -/

/-- C9: after any completed `applyTheme` run at most one theme-managed
style element exists; the `default` theme leaves zero of them (it only
removes); a non-default theme that resolves stored CSS leaves exactly
one; an unclassifiable page also leaves zero. -/
theorem applyTheme_single_style (theme url : String) (st : Store)
    (fallbackFetch : String → Option String) (doc : List StyleEl) :
    themeStyleCount (applyTheme theme url st fallbackFetch doc) ≤ 1 ∧
    (theme = "default" → themeStyleCount (applyTheme theme url st fallbackFetch doc) = 0) ∧
    (∀ pageType css, theme ≠ "default" → getPageType url = some pageType →
      st.get (theme ++ "-" ++ pageType) = some (Val.str css) → css ≠ "" →
      themeStyleCount (applyTheme theme url st fallbackFetch doc) = 1) ∧
    (theme ≠ "default" → getPageType url = none →
      themeStyleCount (applyTheme theme url st fallbackFetch doc) = 0) := by
  refine ⟨?_, ?_, ?_, ?_⟩
  · rcases applyTheme_cases theme url st fallbackFetch doc with h | ⟨c, h⟩ <;> rw [h]
    · rw [count_cleaned]
      exact Nat.zero_le 1
    · rw [count_inject, count_cleaned]
  · intro hd
    unfold applyTheme
    rw [if_pos hd]
    exact count_cleaned doc
  · intro pageType css hdef hpt hcss hne
    rw [applyTheme_hit theme url st fallbackFetch doc pageType css hdef hpt hcss hne]
    rw [count_inject, count_cleaned]
  · intro hdef hpt
    unfold applyTheme
    rw [if_neg hdef, hpt]
    exact count_cleaned doc

/-- Witness for C9: the scenario of the spec — active theme `dark-theme`
with its `home` CSS cached, on a dashboard page — leaves exactly one
theme-managed style element. -/
theorem applyTheme_single_style_w :
    themeStyleCount (applyTheme "dark-theme" "https://p/student_dashboard"
      [("dark-theme-home", Val.str "c1")] (fun _ => none)
      [{ themeAttr := some "stale", content := "old" }]) = 1 :=
  (applyTheme_single_style "dark-theme" "https://p/student_dashboard"
      [("dark-theme-home", Val.str "c1")] (fun _ => none)
      [{ themeAttr := some "stale", content := "old" }]).2.2.1 "home" "c1"
    (by decide) (by decide) (by decide) (by decide)

/-! ## C5: catalog refresh failure recovery -/

/-- C5: a failed refresh (listing fetch failure, or any failure while
processing the directories) returns the last persisted catalog — the
empty mapping when none was ever persisted — and leaves the store
untouched; a successful refresh persists the new catalog and the refresh
timestamp in the returned store. -/
theorem fetchThemesList_spec (fileOracle : String → Option (List RemoteEntry))
    (now : String) (st : Store) :
    (fetchThemesList none fileOracle now st = (cachedCatalog st, st)) ∧
    (∀ dirs, processDirs fileOracle dirs = none →
      fetchThemesList (some dirs) fileOracle now st = (cachedCatalog st, st)) ∧
    (st.get "themes_config" = none → cachedCatalog st = []) ∧
    (∀ c, st.get "themes_config" = some (Val.catalog c) → cachedCatalog st = c) ∧
    (∀ dirs configs, processDirs fileOracle dirs = some configs →
      (fetchThemesList (some dirs) fileOracle now st).1 = configs ∧
      ((fetchThemesList (some dirs) fileOracle now st).2).get "themes_config" =
        some (Val.catalog configs) ∧
      ((fetchThemesList (some dirs) fileOracle now st).2).get "themes_config_updated" =
        some (Val.str now)) := by
  refine ⟨rfl, ?_, ?_, ?_, ?_⟩
  · intro dirs h
    unfold fetchThemesList
    dsimp only
    rw [h]
  · intro h
    unfold cachedCatalog
    rw [h]
  · intro c h
    unfold cachedCatalog
    rw [h]
  · intro dirs configs h
    unfold fetchThemesList
    dsimp only
    rw [h]
    refine ⟨rfl, ?_, ?_⟩
    · rw [get_set_ne _ _ (by decide), get_set_self]
    · rw [get_set_self]

/-- Witness for C5: a refresh whose per-directory fetch fails returns the
previously persisted one-theme catalog and leaves the store unchanged. -/
theorem fetchThemesList_spec_w :
    fetchThemesList (some [⟨"x", "dir", "u"⟩]) (fun _ => none) "T"
        [("themes_config", Val.catalog [("old", mkThemeConfig "old" [])])] =
      ([("old", mkThemeConfig "old" [])],
        [("themes_config", Val.catalog [("old", mkThemeConfig "old" [])])]) := by
  have h := (fetchThemesList_spec (fun _ => none) "T"
    [("themes_config", Val.catalog [("old", mkThemeConfig "old" [])])]).2.1
    [⟨"x", "dir", "u"⟩] (by decide)
  exact h.trans (by decide)

/-! ## C6: first-match file discovery and whole-theme exclusion -/

theorem lookup_eq_none_of_not_mem {l : Catalog} {k : String} (h : ∀ p ∈ l, p.1 ≠ k) :
    List.lookup k l = none := by
  induction l with
  | nil => rfl
  | cons p rest ih =>
    obtain ⟨a, b⟩ := p
    have ha : a ≠ k := h (a, b) (List.mem_cons_self _ _)
    have hba : (k == a) = false := beq_eq_false_iff_ne.mpr (fun hk => ha hk.symm)
    simp only [List.lookup, hba]
    exact ih (fun q hq => h q (List.mem_cons_of_mem _ hq))

/-- Every theme id in the produced catalog is the name of a listed
directory entry. -/
theorem processDirs_names (fileOracle : String → Option (List RemoteEntry)) :
    ∀ dirs catalog, processDirs fileOracle dirs = some catalog →
      ∀ p ∈ catalog, p.1 ∈ dirs.map (fun e => e.name) := by
  intro dirs
  induction dirs with
  | nil =>
    intro catalog h p hp
    simp only [processDirs, Option.some.injEq] at h
    subst h
    simp at hp
  | cons d rest ih =>
    intro catalog h p hp
    by_cases ht : d.type = "dir"
    · simp only [processDirs, if_pos ht] at h
      cases ho : fileOracle d.url with
      | none => rw [ho] at h; exact absurd h (by simp)
      | some files =>
        rw [ho] at h
        dsimp only at h
        cases hb : buildCssFiles files with
        | none =>
          rw [hb] at h
          simp only [List.map_cons, List.mem_cons]
          exact Or.inr (ih catalog h p hp)
        | some m =>
          rw [hb] at h
          dsimp only at h
          cases hr : processDirs fileOracle rest with
          | none => rw [hr] at h; exact absurd h (by simp)
          | some c =>
            rw [hr] at h
            simp at h
            subst h
            simp only [List.map_cons, List.mem_cons]
            rcases List.mem_cons.mp hp with rfl | hp'
            · exact Or.inl rfl
            · exact Or.inr (ih c hr p hp')
    · simp only [processDirs, if_neg ht] at h
      simp only [List.map_cons, List.mem_cons]
      exact Or.inr (ih catalog h p hp)

/-- Looking up a listed directory in the produced catalog yields exactly
the entry built from its validated category-file mapping — in particular
`none` (whole-theme exclusion) when some required category had no
matching file. -/
theorem processDirs_lookup (fileOracle : String → Option (List RemoteEntry)) :
    ∀ dirs catalog, processDirs fileOracle dirs = some catalog →
      (dirs.map (fun e => e.name)).Nodup →
      ∀ d ∈ dirs, d.type = "dir" → ∀ files, fileOracle d.url = some files →
        List.lookup d.name catalog = (buildCssFiles files).map (mkThemeConfig d.name) := by
  intro dirs
  induction dirs with
  | nil =>
    intro catalog h hnd d hd
    simp at hd
  | cons e rest ih =>
    intro catalog h hnd d hd htype files ho
    have hnd' : (rest.map (fun x => x.name)).Nodup := (List.nodup_cons.mp hnd).2
    have hename : e.name ∉ rest.map (fun x => x.name) := (List.nodup_cons.mp hnd).1
    by_cases ht : e.type = "dir"
    · simp only [processDirs, if_pos ht] at h
      cases ho' : fileOracle e.url with
      | none => rw [ho'] at h; exact absurd h (by simp)
      | some efiles =>
        rw [ho'] at h
        dsimp only at h
        cases hb : buildCssFiles efiles with
        | none =>
          rw [hb] at h
          rcases List.mem_cons.mp hd with rfl | hd'
          · have hfiles : files = efiles := by
              have := ho.symm.trans ho'
              exact Option.some.injEq _ _ ▸ this
            subst hfiles
            rw [hb]
            refine lookup_eq_none_of_not_mem (fun p hp hpk => ?_)
            exact hename (hpk ▸ processDirs_names fileOracle rest catalog h p hp)
          · exact ih catalog h hnd' d hd' htype files ho
        | some m =>
          rw [hb] at h
          dsimp only at h
          cases hr : processDirs fileOracle rest with
          | none => rw [hr] at h; exact absurd h (by simp)
          | some c =>
            rw [hr] at h
            simp at h
            subst h
            rcases List.mem_cons.mp hd with rfl | hd'
            · have hfiles : files = efiles := by
                have := ho.symm.trans ho'
                exact Option.some.injEq _ _ ▸ this
              subst hfiles
              rw [hb]
              simp [List.lookup]
            · have hdname : d.name ≠ e.name := by
                intro hn
                exact hename (hn ▸ List.mem_map_of_mem (fun x => x.name) hd')
              have hba : (d.name == e.name) = false := beq_eq_false_iff_ne.mpr hdname
              simp only [List.lookup, hba]
              exact ih c hr hnd' d hd' htype files ho
    · simp only [processDirs, if_neg ht] at h
      rcases List.mem_cons.mp hd with rfl | hd'
      · exact absurd htype ht
      · exact ih catalog h hnd' d hd' htype files ho

/-- The validated mapping records, for each required category, exactly
the first matching file found by `findCssFile`. -/
theorem buildCssFilesAux_lookup (files : List RemoteEntry) :
    ∀ cats m, buildCssFilesAux files cats = some m → cats.Nodup →
      ∀ c ∈ cats, List.lookup c m = findCssFile files c := by
  intro cats
  induction cats with
  | nil =>
    intro m h hnd c hc
    simp at hc
  | cons c0 rest ih =>
    intro m h hnd c hc
    simp only [buildCssFilesAux] at h
    cases hf : findCssFile files c0 with
    | none => rw [hf] at h; exact absurd h (by simp)
    | some n0 =>
      rw [hf] at h
      dsimp only at h
      cases hr : buildCssFilesAux files rest with
      | none => rw [hr] at h; exact absurd h (by simp)
      | some m' =>
        rw [hr] at h
        simp at h
        subst h
        rcases List.mem_cons.mp hc with rfl | hc'
        · simp [List.lookup, hf]
        · have hcne : c ≠ c0 := by
            intro hn
            exact (List.nodup_cons.mp hnd).1 (hn ▸ hc')
          have hba : (c == c0) = false := beq_eq_false_iff_ne.mpr hcne
          simp only [List.lookup, hba]
          exact ih m' hr (List.nodup_cons.mp hnd).2 c hc'

/-- C6: for every directory listed by the remote source, the catalog
entry's file for each required category is the first listed file whose
lower-cased name contains the category tag and whose name ends in
`.css`; when some required category has no such file the whole theme is
excluded from the catalog (no partial entry exists for it). -/
theorem catalog_first_match (fileOracle : String → Option (List RemoteEntry))
    (dirs : List RemoteEntry) (catalog : Catalog)
    (hp : processDirs fileOracle dirs = some catalog)
    (hnd : (dirs.map (fun e => e.name)).Nodup)
    (d : RemoteEntry) (files : List RemoteEntry)
    (hd : d ∈ dirs) (htype : d.type = "dir") (ho : fileOracle d.url = some files) :
    (buildCssFiles files = none → List.lookup d.name catalog = none) ∧
    (∀ m, buildCssFiles files = some m →
      List.lookup d.name catalog = some (mkThemeConfig d.name m) ∧
      ∀ c ∈ REQUIRED_THEME_FILES, List.lookup c m = findCssFile files c) ∧
    (∀ c n, findCssFile files c = some n →
      ∃ f pre post, files = pre ++ f :: post ∧ f.name = n ∧ isMatchingCss c f = true ∧
        ∀ g ∈ pre, isMatchingCss c g = false) ∧
    (∀ c, findCssFile files c = none → ∀ f ∈ files, isMatchingCss c f = false) := by
  have hlk := processDirs_lookup fileOracle dirs catalog hp hnd d hd htype files ho
  refine ⟨?_, ?_, ?_, ?_⟩
  · intro hb
    rw [hb] at hlk
    exact hlk
  · intro m hb
    rw [hb] at hlk
    refine ⟨hlk, ?_⟩
    exact buildCssFilesAux_lookup files REQUIRED_THEME_FILES m hb (by decide)
  · intro c n hf
    unfold findCssFile at hf
    cases hfind : files.find? (isMatchingCss c) with
    | none => rw [hfind] at hf; exact absurd hf (by simp)
    | some f =>
      rw [hfind] at hf
      simp at hf
      obtain ⟨hm, pre, post, hsplit, hpre⟩ := List.find?_eq_some.mp hfind
      refine ⟨f, pre, post, hsplit, hf, hm, fun g hg => ?_⟩
      have := hpre g hg
      simpa using this
  · intro c hf f hfmem
    unfold findCssFile at hf
    cases hfind : files.find? (isMatchingCss c) with
    | none =>
      have := List.find?_eq_none.mp hfind f hfmem
      simpa using this
    | some g => rw [hfind] at hf; exact absurd hf (by simp)

/-- Witness for C6: a two-directory listing where `forest-mist` is valid
and `partial-dir` lacks an `assignments` file — the catalog contains
exactly the `forest-mist` entry with the first matching file names, and
no entry for `partial-dir`. -/
theorem catalog_first_match_w :
    List.lookup "partial-dir"
        [("forest-mist", mkThemeConfig "forest-mist"
          [("home", "forest-mist-theme-home.css"),
           ("assignments", "forest-mist-theme-assignments.css"),
           ("extras", "forest-mist-theme-extras.css")])] = (none : Option ThemeConfig) := by
  have h := catalog_first_match
    (fun u =>
      if u = "u1" then
        some [⟨"forest-mist-theme-home.css", "file", "x"⟩,
          ⟨"forest-mist-theme-assignments.css", "file", "x"⟩,
          ⟨"forest-mist-theme-extras.css", "file", "x"⟩]
      else if u = "u2" then some [⟨"partial-dir-theme-home.css", "file", "x"⟩]
      else none)
    [⟨"forest-mist", "dir", "u1"⟩, ⟨"partial-dir", "dir", "u2"⟩]
    [("forest-mist", mkThemeConfig "forest-mist"
      [("home", "forest-mist-theme-home.css"),
       ("assignments", "forest-mist-theme-assignments.css"),
       ("extras", "forest-mist-theme-extras.css")])]
    (by decide) (by decide) ⟨"partial-dir", "dir", "u2"⟩
    [⟨"partial-dir-theme-home.css", "file", "x"⟩]
    (by decide) (by decide) (by decide)
  exact h.1 (by decide)

/-! ## Downloader helper lemmas -/

theorem cssFetchResult_success {b : String} (h : 10 ≤ (jsTrim b).length) :
    cssFetchResult (FetchOutcome.success b) = some b := by
  have hne : ¬(b = "" ∨ (jsTrim b).length < 10) := by
    rintro (hb | hlt)
    · rw [hb] at h
      have h0 : (jsTrim "").length = 0 := by decide
      omega
    · omega
  unfold cssFetchResult
  dsimp only
  rw [if_neg hne]

theorem length_pos_of_valid {b : String} (h : 10 ≤ (jsTrim b).length) : 0 < b.length := by
  rcases Nat.eq_zero_or_pos b.length with h0 | hp
  · exfalso
    have hb : b = "" := String.ext (List.length_eq_zero.mp h0)
    rw [hb] at h
    have h0' : (jsTrim "").length = 0 := by decide
    omega
  · exact hp

theorem cssKey_ne_of_cat_ne {t c c' : String} (hc : c ∈ REQUIRED_THEME_FILES)
    (hc' : c' ∈ REQUIRED_THEME_FILES) (hne : c ≠ c') : t ++ "-" ++ c ≠ t ++ "-" ++ c' :=
  fun h => hne (cssKey_inj hc hc' h).2

/-! ## C7: successful download persists everything and is observable -/

/-- C7: when the theme is in the catalog and all three category fetches
succeed with bodies of at least 10 characters after trimming,
`downloadTheme` returns `true`, the store afterwards holds the three CSS
keys with the fetched bodies plus the `{tid}_downloaded` timestamp key,
and `isThemeDownloaded` reports `true`. -/
theorem downloadTheme_success (config : Catalog) (tid : String)
    (fetch : String → FetchOutcome) (ts : String) (st : Store) (dl : List String)
    (cfg : ThemeConfig) (body : String → String)
    (hcfg : List.lookup tid config = some cfg)
    (hfetch : ∀ c ∈ REQUIRED_THEME_FILES,
      fetch (buildGitHubUrl tid c) = FetchOutcome.success (body c))
    (hlen : ∀ c ∈ REQUIRED_THEME_FILES, 10 ≤ (jsTrim (body c)).length) :
    (downloadTheme config tid fetch ts st dl).1 = true ∧
    (∀ c ∈ REQUIRED_THEME_FILES,
      ((downloadTheme config tid fetch ts st dl).2.1).get (tid ++ "-" ++ c) =
        some (Val.str (body c))) ∧
    ((downloadTheme config tid fetch ts st dl).2.1).get (tid ++ "_downloaded") =
      some (Val.str ts) ∧
    isThemeDownloaded (downloadTheme config tid fetch ts st dl).2.1 tid = true := by
  have hres : downloadResults tid fetch =
      [("home", some (body "home")), ("assignments", some (body "assignments")),
       ("extras", some (body "extras"))] := by
    unfold downloadResults
    simp only [REQUIRED_THEME_FILES, List.map_cons, List.map_nil]
    rw [hfetch "home" (by decide), hfetch "assignments" (by decide),
      hfetch "extras" (by decide)]
    rw [cssFetchResult_success (hlen "home" (by decide)),
      cssFetchResult_success (hlen "assignments" (by decide)),
      cssFetchResult_success (hlen "extras" (by decide))]
  have hdl : downloadTheme config tid fetch ts st dl =
      (true, ((((st.set (tid ++ "-" ++ "home") (Val.str (body "home"))).set
        (tid ++ "-" ++ "assignments") (Val.str (body "assignments"))).set
        (tid ++ "-" ++ "extras") (Val.str (body "extras"))).set
        (tid ++ "_downloaded") (Val.str ts)), addDl dl tid) := by
    unfold downloadTheme
    rw [hcfg]
    dsimp only
    rw [hres]
    simp [storeResults]
  rw [hdl]
  have hg1 : ((((st.set (tid ++ "-" ++ "home") (Val.str (body "home"))).set
      (tid ++ "-" ++ "assignments") (Val.str (body "assignments"))).set
      (tid ++ "-" ++ "extras") (Val.str (body "extras"))).set
      (tid ++ "_downloaded") (Val.str ts)).get (tid ++ "-" ++ "home") =
      some (Val.str (body "home")) := by
    rw [get_set_ne _ _ (cssKey_ne_tsKey (by decide)),
      get_set_ne _ _ (cssKey_ne_of_cat_ne (by decide) (by decide) (by decide)),
      get_set_ne _ _ (cssKey_ne_of_cat_ne (by decide) (by decide) (by decide)),
      get_set_self]
  have hg2 : ((((st.set (tid ++ "-" ++ "home") (Val.str (body "home"))).set
      (tid ++ "-" ++ "assignments") (Val.str (body "assignments"))).set
      (tid ++ "-" ++ "extras") (Val.str (body "extras"))).set
      (tid ++ "_downloaded") (Val.str ts)).get (tid ++ "-" ++ "assignments") =
      some (Val.str (body "assignments")) := by
    rw [get_set_ne _ _ (cssKey_ne_tsKey (by decide)),
      get_set_ne _ _ (cssKey_ne_of_cat_ne (by decide) (by decide) (by decide)),
      get_set_self]
  have hg3 : ((((st.set (tid ++ "-" ++ "home") (Val.str (body "home"))).set
      (tid ++ "-" ++ "assignments") (Val.str (body "assignments"))).set
      (tid ++ "-" ++ "extras") (Val.str (body "extras"))).set
      (tid ++ "_downloaded") (Val.str ts)).get (tid ++ "-" ++ "extras") =
      some (Val.str (body "extras")) := by
    rw [get_set_ne _ _ (cssKey_ne_tsKey (by decide)), get_set_self]
  refine ⟨rfl, ?_, ?_, ?_⟩
  · intro c hc
    rcases mem_required_cases hc with rfl | rfl | rfl
    · exact hg1
    · exact hg2
    · exact hg3
  · rw [get_set_self]
  · unfold isThemeDownloaded
    simp only [REQUIRED_THEME_FILES, List.all_cons, List.all_nil]
    rw [hg1, hg2, hg3]
    simp only [Bool.and_eq_true, decide_eq_true_eq, Bool.and_true]
    exact ⟨length_pos_of_valid (hlen "home" (by decide)),
      length_pos_of_valid (hlen "assignments" (by decide)),
      length_pos_of_valid (hlen "extras" (by decide))⟩

/-- Witness for C7: the spec's `forest-mist` scenario with three
successful fetches. -/
theorem downloadTheme_success_w :
    (downloadTheme
        [("forest-mist", mkThemeConfig "forest-mist"
          [("home", "forest-mist-theme-home.css"),
           ("assignments", "forest-mist-theme-assignments.css"),
           ("extras", "forest-mist-theme-extras.css")])]
        "forest-mist" (fun _ => FetchOutcome.success "samplecssbodytextaa") "2024-01-01"
        [] []).1 = true ∧
    isThemeDownloaded
      (downloadTheme
        [("forest-mist", mkThemeConfig "forest-mist"
          [("home", "forest-mist-theme-home.css"),
           ("assignments", "forest-mist-theme-assignments.css"),
           ("extras", "forest-mist-theme-extras.css")])]
        "forest-mist" (fun _ => FetchOutcome.success "samplecssbodytextaa") "2024-01-01"
        [] []).2.1 "forest-mist" = true := by
  have h := downloadTheme_success
    [("forest-mist", mkThemeConfig "forest-mist"
      [("home", "forest-mist-theme-home.css"),
       ("assignments", "forest-mist-theme-assignments.css"),
       ("extras", "forest-mist-theme-extras.css")])]
    "forest-mist" (fun _ => FetchOutcome.success "samplecssbodytextaa") "2024-01-01"
    [] [] (mkThemeConfig "forest-mist"
      [("home", "forest-mist-theme-home.css"),
       ("assignments", "forest-mist-theme-assignments.css"),
       ("extras", "forest-mist-theme-extras.css")])
    (fun _ => "samplecssbodytextaa") (by decide)
    (fun c _ => rfl)
    (fun c _ => by show 10 ≤ (jsTrim "samplecssbodytextaa").length; decide)
  exact ⟨h.1, h.2.2.2⟩

/-! ## storeResults lemmas -/

theorem get_storeResults_other (tid k : String) :
    ∀ (results : List (String × Option String)) (st : Store),
      (∀ p ∈ results, k ≠ tid ++ "-" ++ p.1) →
      (storeResults tid st results).get k = st.get k := by
  intro results
  induction results with
  | nil => intro st h; rfl
  | cons p rest ih =>
    intro st h
    obtain ⟨ft, r⟩ := p
    cases r with
    | none =>
      simp only [storeResults]
      exact ih st (fun q hq => h q (List.mem_cons_of_mem _ hq))
    | some css =>
      simp only [storeResults]
      rw [ih _ (fun q hq => h q (List.mem_cons_of_mem _ hq))]
      exact get_set_ne st _ (h (ft, some css) (List.mem_cons_self _ _))

theorem cssKey_cat_inj {t a b : String} (h : t ++ "-" ++ a = t ++ "-" ++ b) : a = b := by
  rw [String.append_assoc, String.append_assoc] at h
  have h2 : ("-" : String) ++ a = "-" ++ b := str_append_cancel_left h
  exact str_append_cancel_left h2

theorem get_storeResults_some (tid : String) :
    ∀ (results : List (String × Option String)) (st : Store) (ft : String) (css : String),
      (ft, some css) ∈ results → (results.map (fun p => p.1)).Nodup →
      (storeResults tid st results).get (tid ++ "-" ++ ft) = some (Val.str css) := by
  intro results
  induction results with
  | nil => intro st ft css h hnd; simp at h
  | cons p rest ih =>
    intro st ft css h hnd
    obtain ⟨ft0, r0⟩ := p
    rcases List.mem_cons.mp h with heq | hmem
    · cases heq
      simp only [storeResults]
      rw [get_storeResults_other]
      · exact get_set_self st _ _
      · intro q hq hk
        have hfts : ft = q.1 := cssKey_cat_inj hk
        have hnd2 : (ft :: rest.map (fun p => p.1)).Nodup := by simpa using hnd
        have hnotin : ft ∉ rest.map (fun p => p.1) := (List.nodup_cons.mp hnd2).1
        exact hnotin (hfts ▸ List.mem_map_of_mem (fun p => p.1) hq)
    · have hnd2 : (ft0 :: rest.map (fun p => p.1)).Nodup := by simpa using hnd
      have hnd' : (rest.map (fun p => p.1)).Nodup := (List.nodup_cons.mp hnd2).2
      cases r0 with
      | none =>
        simp only [storeResults]
        exact ih st ft css hmem hnd'
      | some c0 =>
        simp only [storeResults]
        exact ih _ ft css hmem hnd'

/-! ## C1: failed download — corrected semantics -/

/-- Counterexample to C1 as stated: with the `forest-mist`-style theme in
the catalog, `home` and `assignments` fetches succeeding and the
`extras` fetch failing, `downloadTheme` returns `false`, yet the store —
empty beforehand — afterwards holds the CSS key `fm-home`, not zero
keys for the theme. -/
theorem downloadTheme_partial_cex :
    (downloadTheme [("fm", mkThemeConfig "fm"
        [("home", "fm-theme-home.css"), ("assignments", "fm-theme-assignments.css"),
         ("extras", "fm-theme-extras.css")])]
      "fm"
      (fun url => if url = buildGitHubUrl "fm" "extras" then FetchOutcome.failure
        else FetchOutcome.success "samplecssbodytextbb")
      "2024-01-01" [] []).1 = false ∧
    ((downloadTheme [("fm", mkThemeConfig "fm"
        [("home", "fm-theme-home.css"), ("assignments", "fm-theme-assignments.css"),
         ("extras", "fm-theme-extras.css")])]
      "fm"
      (fun url => if url = buildGitHubUrl "fm" "extras" then FetchOutcome.failure
        else FetchOutcome.success "samplecssbodytextbb")
      "2024-01-01" [] []).2.1).get "fm-home" = some (Val.str "samplecssbodytextbb") := by
  decide

/-- C1 amended: if the theme is in the catalog and any required
category's fetch fails (network error, non-success status, or too-short
body), `downloadTheme` returns `false`, the Download Record key
`{tid}_downloaded` is left exactly as it was, and the downloaded-themes
set is unchanged; however every category whose fetch succeeded has its
CSS persisted under `{tid}-{category}` (partial Stored Assets remain). -/
theorem downloadTheme_failure (config : Catalog) (tid : String)
    (fetch : String → FetchOutcome) (ts : String) (st : Store) (dl : List String)
    (cfg : ThemeConfig) (hcfg : List.lookup tid config = some cfg)
    (hfail : ∃ c ∈ REQUIRED_THEME_FILES,
      cssFetchResult (fetch (buildGitHubUrl tid c)) = none) :
    (downloadTheme config tid fetch ts st dl).1 = false ∧
    ((downloadTheme config tid fetch ts st dl).2.1).get (tid ++ "_downloaded") =
      st.get (tid ++ "_downloaded") ∧
    (downloadTheme config tid fetch ts st dl).2.2 = dl ∧
    (∀ c ∈ REQUIRED_THEME_FILES, ∀ css,
      cssFetchResult (fetch (buildGitHubUrl tid c)) = some css →
      ((downloadTheme config tid fetch ts st dl).2.1).get (tid ++ "-" ++ c) =
        some (Val.str css)) := by
  obtain ⟨c0, hc0, hnone⟩ := hfail
  have hallfalse : (downloadResults tid fetch).all (fun p => p.2.isSome) = false := by
    refine List.all_eq_false.mpr ⟨(c0, none), ?_, by simp⟩
    have hm := List.mem_map_of_mem
      (fun ft => (ft, cssFetchResult (fetch (buildGitHubUrl tid ft)))) hc0
    dsimp only at hm
    rw [hnone] at hm
    exact hm
  have hdl : downloadTheme config tid fetch ts st dl =
      (false, storeResults tid st (downloadResults tid fetch), dl) := by
    unfold downloadTheme
    rw [hcfg]
    dsimp only
    simp [hallfalse]
  rw [hdl]
  refine ⟨rfl, ?_, rfl, ?_⟩
  · apply get_storeResults_other
    intro p hp
    unfold downloadResults at hp
    rcases List.mem_map.mp hp with ⟨a, ha, heq⟩
    have hp1 : p.1 = a := by rw [heq.symm]
    rw [hp1]
    exact Ne.symm (cssKey_ne_tsKey ha)
  · intro c hc css hcss
    apply get_storeResults_some
    · have hm := List.mem_map_of_mem
        (fun ft => (ft, cssFetchResult (fetch (buildGitHubUrl tid ft)))) hc
      dsimp only at hm
      rw [hcss] at hm
      exact hm
    · have hmapeq : ((REQUIRED_THEME_FILES.map
          (fun ft => (ft, cssFetchResult (fetch (buildGitHubUrl tid ft))))).map
          (fun p => p.1)) = REQUIRED_THEME_FILES := by
        rw [List.map_map]
        exact (List.map_congr_left (fun x _ => rfl)).trans (List.map_id _)
      unfold downloadResults
      rw [hmapeq]
      decide

/-- Witness for the amended C1: in the trace of the counterexample, the
timestamp key stays absent and the succeeded `home` category is
persisted. -/
theorem downloadTheme_failure_w :
    ((downloadTheme [("fm", mkThemeConfig "fm"
        [("home", "fm-theme-home.css"), ("assignments", "fm-theme-assignments.css"),
         ("extras", "fm-theme-extras.css")])]
      "fm"
      (fun url => if url = buildGitHubUrl "fm" "extras" then FetchOutcome.failure
        else FetchOutcome.success "samplecssbodytextbb")
      "2024-01-01" [] []).2.1).get ("fm" ++ "_downloaded") = Store.get [] ("fm" ++ "_downloaded") := by
  have h := downloadTheme_failure [("fm", mkThemeConfig "fm"
      [("home", "fm-theme-home.css"), ("assignments", "fm-theme-assignments.css"),
       ("extras", "fm-theme-extras.css")])]
    "fm"
    (fun url => if url = buildGitHubUrl "fm" "extras" then FetchOutcome.failure
      else FetchOutcome.success "samplecssbodytextbb")
    "2024-01-01" [] []
    (mkThemeConfig "fm"
      [("home", "fm-theme-home.css"), ("assignments", "fm-theme-assignments.css"),
       ("extras", "fm-theme-extras.css")])
    (by decide)
    ⟨"extras", by decide, by decide⟩
  exact h.2.1

/-! ## C3: the fetched asset URL — corrected naming scheme -/

/-- Counterexample to C3 as stated: the catalog records
`customname.css` for `fm`'s `home` category, so the spec-side URL is
`.../themes/fm/customname.css`, but `buildGitHubUrl` produces
`.../themes/fm/fm-theme-home.css`; with a network where exactly the
catalog-recorded URLs resolve, the download nevertheless fails — the
downloader does not fetch the catalog-recorded names. -/
theorem buildGitHubUrl_scheme_cex :
    specAssetUrl c3cfg "home" =
      some "https://raw.githubusercontent.com/0xAadit/better-portal/main/themes/fm/customname.css" ∧
    buildGitHubUrl "fm" "home" =
      "https://raw.githubusercontent.com/0xAadit/better-portal/main/themes/fm/fm-theme-home.css" ∧
    specAssetUrl c3cfg "home" ≠ some (buildGitHubUrl "fm" "home") ∧
    (downloadTheme [("fm", c3cfg)] "fm" c3fetch "2024-01-01" [] []).1 = false := by
  decide

/-- C3 amended: for every required category the downloader fetches the
URL built from the fixed raw-content base and the hardcoded file-name
pattern `{tid}-theme-{category}.css` under `themes/{tid}`; the catalog
entry's `categoryFiles`/`remotePath` are ignored — the result depends
neither on the entry stored for the theme nor on the network's behaviour
at any other URL. -/
theorem downloadTheme_url_scheme (tid c : String) (config config2 : Catalog)
    (fetch g : String → FetchOutcome) (ts : String) (st : Store) (dl : List String) :
    (buildGitHubUrl tid c =
      "https://raw.githubusercontent.com/0xAadit/better-portal/main/themes/" ++ tid ++ "/" ++
        (tid ++ "-theme-" ++ c ++ ".css")) ∧
    (List.lookup tid config ≠ none → List.lookup tid config2 ≠ none →
      downloadTheme config tid fetch ts st dl = downloadTheme config2 tid fetch ts st dl) ∧
    ((∀ x ∈ REQUIRED_THEME_FILES, fetch (buildGitHubUrl tid x) = g (buildGitHubUrl tid x)) →
      downloadTheme config tid fetch ts st dl = downloadTheme config tid g ts st dl) := by
  refine ⟨?_, ?_, ?_⟩
  · unfold buildGitHubUrl REPO_OWNER REPO_NAME BRANCH
    rw [show ("https://raw.githubusercontent.com/" ++ "0xAadit" ++ "/" ++ "better-portal" ++
      "/" ++ "main" ++ "/themes/" : String) =
      "https://raw.githubusercontent.com/0xAadit/better-portal/main/themes/" from by decide]
  · intro h1 h2
    unfold downloadTheme
    cases hl1 : List.lookup tid config with
    | none => exact absurd hl1 h1
    | some c1 =>
      cases hl2 : List.lookup tid config2 with
      | none => exact absurd hl2 h2
      | some c2 => rfl
  · intro heq
    have hres : downloadResults tid fetch = downloadResults tid g := by
      unfold downloadResults
      exact List.map_congr_left (fun x hx => by rw [heq x hx])
    unfold downloadTheme
    rw [hres]

/-- Witness for the amended C3 at a concrete theme and category. -/
theorem downloadTheme_url_scheme_w :
    buildGitHubUrl "fm" "home" =
      "https://raw.githubusercontent.com/0xAadit/better-portal/main/themes/fm/fm-theme-home.css" := by
  have h := (downloadTheme_url_scheme "fm" "home" [] [] (fun _ => FetchOutcome.failure)
    (fun _ => FetchOutcome.failure) "t" [] []).1
  exact h.trans (by decide)

/-! ## C4: eviction bound -/

theorem topK_length_le (active : Option String) :
    ∀ (l : List String) (k : Nat), (topK active l k).length ≤ k := by
  intro l
  induction l with
  | nil => intro k; simp [topK]
  | cons t ts ih =>
    intro k
    cases k with
    | zero => simp [topK]
    | succ n =>
      unfold topK
      by_cases h : some t = active
      · rw [if_pos h]
        exact ih (n + 1)
      · rw [if_neg h]
        simp only [List.length_cons]
        exact Nat.succ_le_succ (ih n)

theorem cleanup_fold_get (active : Option String) (keep : List String) (k : String)
    (stTheme : Option Val) (hact : ∀ t, stTheme = some (Val.str t) → some t = active) :
    ∀ (l : List String) (acc : Store × List String), acc.1.get "theme" = stTheme →
      ((l.foldl
        (fun acc tid =>
          if some tid = active ∨ tid ∈ keep then acc
          else ((removeTheme acc.1 tid acc.2).2.1, (removeTheme acc.1 tid acc.2).2.2))
        acc).1).get k =
      (if ∃ t ∈ l, ¬(some t = active ∨ t ∈ keep) ∧
          (k ∈ REQUIRED_THEME_FILES.map (fun c => t ++ "-" ++ c) ∨ k = t ++ "_downloaded")
        then none else acc.1.get k) := by
  intro l
  induction l with
  | nil =>
    intro acc hth
    simp
  | cons t rest ih =>
    intro acc hth
    rw [List.foldl_cons]
    by_cases hk : some t = active ∨ t ∈ keep
    · rw [if_pos hk, ih acc hth]
      have hiff : (∃ t' ∈ rest, ¬(some t' = active ∨ t' ∈ keep) ∧
          (k ∈ REQUIRED_THEME_FILES.map (fun c => t' ++ "-" ++ c) ∨ k = t' ++ "_downloaded")) ↔
          (∃ t' ∈ t :: rest, ¬(some t' = active ∨ t' ∈ keep) ∧
          (k ∈ REQUIRED_THEME_FILES.map (fun c => t' ++ "-" ++ c) ∨ k = t' ++ "_downloaded")) := by
        constructor
        · rintro ⟨t', ht', hP⟩
          exact ⟨t', List.mem_cons_of_mem _ ht', hP⟩
        · rintro ⟨t', ht', hP⟩
          rcases List.mem_cons.mp ht' with rfl | h'
          · exact (hP.1 hk).elim
          · exact ⟨t', h', hP⟩
      exact if_congr hiff rfl rfl
    · rw [if_neg hk]
      have hchk : ¬(acc.1.get "theme" = some (Val.str t)) := fun h =>
        hk (Or.inl (hact t (hth.symm.trans h)))
      have hrm : removeTheme acc.1 t acc.2 =
          (true, acc.1.removeKeys (REQUIRED_THEME_FILES.map (fun ft => t ++ "-" ++ ft) ++
            [t ++ "_downloaded"]), acc.2.erase t) := by
        unfold removeTheme
        rw [if_neg hchk]
      rw [hrm]
      dsimp only
      have hth' : (acc.1.removeKeys (REQUIRED_THEME_FILES.map (fun ft => t ++ "-" ++ ft) ++
          [t ++ "_downloaded"])).get "theme" = stTheme := by
        rw [get_removeKeys_not_mem]
        · exact hth
        · intro hmem
          rcases List.mem_append.mp hmem with hmem1 | hmem2
          · rcases List.mem_map.mp hmem1 with ⟨c, hcR, hkey⟩
            exact (cssKey_ne_reserved hcR (Or.inl rfl)) hkey
          · exact (tsKey_ne_reserved (Or.inl rfl)) (List.mem_singleton.mp hmem2).symm
      rw [ih _ hth']
      by_cases hex : ∃ t' ∈ rest, ¬(some t' = active ∨ t' ∈ keep) ∧
          (k ∈ REQUIRED_THEME_FILES.map (fun c => t' ++ "-" ++ c) ∨ k = t' ++ "_downloaded")
      · rw [if_pos hex]
        obtain ⟨t', ht', hP⟩ := hex
        rw [if_pos ⟨t', List.mem_cons_of_mem _ ht', hP⟩]
      · rw [if_neg hex]
        by_cases hkey : k ∈ REQUIRED_THEME_FILES.map (fun c => t ++ "-" ++ c) ∨
            k = t ++ "_downloaded"
        · rw [get_removeKeys_mem]
          · rw [if_pos ⟨t, List.mem_cons_self _ _, hk, hkey⟩]
          · rcases hkey with h1 | h2
            · exact List.mem_append.mpr (Or.inl h1)
            · exact List.mem_append.mpr (Or.inr (List.mem_singleton.mpr h2))
        · rw [get_removeKeys_not_mem]
          · rw [if_neg ?_]
            rintro ⟨t', ht', hnk', hkey'⟩
            rcases List.mem_cons.mp ht' with rfl | h'
            · exact hkey hkey'
            · exact hex ⟨t', h', hnk', hkey'⟩
          · intro hmem
            apply hkey
            rcases List.mem_append.mp hmem with h1 | h2
            · exact Or.inl h1
            · exact Or.inr (List.mem_singleton.mp h2)

/-- Closed form of the cleanup's effect on the store: exactly the theme
keys of the non-retained downloaded themes are deleted; every other key
is untouched. -/
theorem cleanup_get (dateVal : Val → Int) (st : Store) (dl : List String) (k : String) :
    ((cleanupUnusedThemes dateVal st dl).1).get k =
      (if ∃ t ∈ dl, ¬(some t = activeTheme st ∨ t ∈ keptRecent dateVal st dl) ∧
          (k ∈ REQUIRED_THEME_FILES.map (fun c => t ++ "-" ++ c) ∨ k = t ++ "_downloaded")
        then none else st.get k) := by
  unfold cleanupUnusedThemes
  dsimp only
  exact cleanup_fold_get (activeTheme st) (keptRecent dateVal st dl) k (st.get "theme")
    (fun t h => by unfold activeTheme; rw [h]) dl (st, dl) rfl

theorem cleanup_downloaded_before (dateVal : Val → Int) (st : Store) (dl : List String)
    (t : String) (hd : isThemeDownloaded (cleanupUnusedThemes dateVal st dl).1 t = true) :
    isThemeDownloaded st t = true := by
  unfold isThemeDownloaded at hd ⊢
  rw [List.all_eq_true] at hd ⊢
  intro x hx
  have hdx := hd x hx
  rw [cleanup_get] at hdx
  by_cases hc : ∃ u ∈ dl, ¬(some u = activeTheme st ∨ u ∈ keptRecent dateVal st dl) ∧
      (t ++ "-" ++ x ∈ REQUIRED_THEME_FILES.map (fun c => u ++ "-" ++ c) ∨
        t ++ "-" ++ x = u ++ "_downloaded")
  · rw [if_pos hc] at hdx
    simp at hdx
  · rw [if_neg hc] at hdx
    exact hdx

/-- C4 amended: after `cleanupUnusedThemes`, every theme tracked in the
downloaded set that is neither the active theme nor among the two
tracked themes with the most recent Download Records has all its Stored
Assets and its Download Record deleted; the active theme's keys are
never touched (even with no Download Record); the cleanup creates no new
downloaded themes, and among the tracked themes at most three remain
downloaded — every tracked theme still observed as downloaded belongs to
the at-most-three-element list of the active theme and the two retained
ones.  Themes downloaded in the store but absent from the tracked set
are left entirely untouched (which is why the overall number of
downloaded themes can exceed three). -/
theorem cleanup_bound (dateVal : Val → Int) (st : Store) (dl : List String) :
    (∀ t ∈ dl, ¬(some t = activeTheme st ∨ t ∈ keptRecent dateVal st dl) →
      (∀ c ∈ REQUIRED_THEME_FILES,
        ((cleanupUnusedThemes dateVal st dl).1).get (t ++ "-" ++ c) = none) ∧
      ((cleanupUnusedThemes dateVal st dl).1).get (t ++ "_downloaded") = none ∧
      isThemeDownloaded (cleanupUnusedThemes dateVal st dl).1 t = false) ∧
    (∀ a, activeTheme st = some a →
      (∀ c ∈ REQUIRED_THEME_FILES,
        ((cleanupUnusedThemes dateVal st dl).1).get (a ++ "-" ++ c) = st.get (a ++ "-" ++ c)) ∧
      ((cleanupUnusedThemes dateVal st dl).1).get (a ++ "_downloaded") =
        st.get (a ++ "_downloaded")) ∧
    ((activeList st ++ keptRecent dateVal st dl).length ≤ 3) ∧
    (∀ t, isThemeDownloaded (cleanupUnusedThemes dateVal st dl).1 t = true →
      isThemeDownloaded st t = true) ∧
    (∀ t ∈ dl, isThemeDownloaded (cleanupUnusedThemes dateVal st dl).1 t = true →
      t ∈ activeList st ++ keptRecent dateVal st dl) ∧
    (∀ t, t ∉ dl →
      (∀ c ∈ REQUIRED_THEME_FILES,
        ((cleanupUnusedThemes dateVal st dl).1).get (t ++ "-" ++ c) = st.get (t ++ "-" ++ c)) ∧
      ((cleanupUnusedThemes dateVal st dl).1).get (t ++ "_downloaded") =
        st.get (t ++ "_downloaded")) := by
  have hremoved : ∀ t ∈ dl, ¬(some t = activeTheme st ∨ t ∈ keptRecent dateVal st dl) →
      (∀ c ∈ REQUIRED_THEME_FILES,
        ((cleanupUnusedThemes dateVal st dl).1).get (t ++ "-" ++ c) = none) ∧
      ((cleanupUnusedThemes dateVal st dl).1).get (t ++ "_downloaded") = none := by
    intro t ht hnk
    constructor
    · intro c hc
      rw [cleanup_get]
      exact if_pos ⟨t, ht, hnk, Or.inl (List.mem_map_of_mem (fun c => t ++ "-" ++ c) hc)⟩
    · rw [cleanup_get]
      exact if_pos ⟨t, ht, hnk, Or.inr rfl⟩
  refine ⟨?_, ?_, ?_, ?_, ?_, ?_⟩
  · intro t ht hnk
    obtain ⟨hcss, hts⟩ := hremoved t ht hnk
    refine ⟨hcss, hts, ?_⟩
    rw [Bool.eq_false_iff]
    intro hdd
    unfold isThemeDownloaded at hdd
    rw [List.all_eq_true] at hdd
    have h1 := hdd "home" (by decide)
    rw [hcss "home" (by decide)] at h1
    simp at h1
  · intro a ha
    constructor
    · intro c hc
      rw [cleanup_get]
      rw [if_neg ?_]
      rintro ⟨t, ht, hnk, hkey⟩
      rcases hkey with h1 | h2
      · rcases List.mem_map.mp h1 with ⟨c', hc', hkeq⟩
        have := (cssKey_inj hc' hc hkeq).1
        exact hnk (Or.inl (this ▸ ha.symm))
      · exact (cssKey_ne_tsKey hc) h2
    · rw [cleanup_get]
      rw [if_neg ?_]
      rintro ⟨t, ht, hnk, hkey⟩
      rcases hkey with h1 | h2
      · rcases List.mem_map.mp h1 with ⟨c', hc', hkeq⟩
        exact (cssKey_ne_tsKey hc') hkeq
      · have := tsKey_inj h2.symm
        exact hnk (Or.inl (this ▸ ha.symm))
  · rw [List.length_append]
    have h1 : (activeList st).length ≤ 1 := by
      unfold activeList
      cases activeTheme st <;> simp
    have h2 : (keptRecent dateVal st dl).length ≤ 2 := topK_length_le _ _ 2
    omega
  · intro t hdd
    exact cleanup_downloaded_before dateVal st dl t hdd
  · intro t htdl hdd
    by_cases hkept : some t = activeTheme st ∨ t ∈ keptRecent dateVal st dl
    · rcases hkept with hA | hK
      · refine List.mem_append.mpr (Or.inl ?_)
        unfold activeList
        rw [← hA]
        exact List.mem_singleton.mpr rfl
      · exact List.mem_append.mpr (Or.inr hK)
    · obtain ⟨hcss, _⟩ := hremoved t htdl hkept
      exfalso
      unfold isThemeDownloaded at hdd
      rw [List.all_eq_true] at hdd
      have h1 := hdd "home" (by decide)
      rw [hcss "home" (by decide)] at h1
      simp at h1
  · intro t htdl
    constructor
    · intro c hc
      rw [cleanup_get]
      rw [if_neg ?_]
      rintro ⟨u, hu, hnk, hkey⟩
      rcases hkey with h1 | h2
      · rcases List.mem_map.mp h1 with ⟨c', hc', hkeq⟩
        exact htdl ((cssKey_inj hc hc' hkeq.symm).1 ▸ hu)
      · exact (cssKey_ne_tsKey hc) h2
    · rw [cleanup_get]
      rw [if_neg ?_]
      rintro ⟨u, hu, hnk, hkey⟩
      rcases hkey with h1 | h2
      · rcases List.mem_map.mp h1 with ⟨c', hc', hkeq⟩
        exact (cssKey_ne_tsKey hc') hkeq
      · exact htdl ((tsKey_inj h2) ▸ hu)

/-- Witness for C4: the spec's eviction scenario — active theme `a` with
no Download Record, four other downloaded themes `b`,`c`,`d`,`e` — the
oldest non-retained theme `b` loses its `home` asset while the active
theme keeps its assets. -/
theorem cleanup_bound_w :
    ((cleanupUnusedThemes
        (fun v => match v with | Val.str s => (s.data.length : Int) | Val.catalog _ => 0)
        [("theme", Val.str "a"),
         ("b_downloaded", Val.str "1"), ("c_downloaded", Val.str "22"),
         ("d_downloaded", Val.str "333"), ("e_downloaded", Val.str "4444"),
         ("a-home", Val.str "x"), ("a-assignments", Val.str "x"), ("a-extras", Val.str "x"),
         ("b-home", Val.str "x"), ("b-assignments", Val.str "x"), ("b-extras", Val.str "x"),
         ("c-home", Val.str "x"), ("c-assignments", Val.str "x"), ("c-extras", Val.str "x"),
         ("d-home", Val.str "x"), ("d-assignments", Val.str "x"), ("d-extras", Val.str "x"),
         ("e-home", Val.str "x"), ("e-assignments", Val.str "x"), ("e-extras", Val.str "x")]
        ["a", "b", "c", "d", "e"]).1).get ("b" ++ "-" ++ "home") = none := by
  have h := cleanup_bound
    (fun v => match v with | Val.str s => (s.data.length : Int) | Val.catalog _ => 0)
    [("theme", Val.str "a"),
     ("b_downloaded", Val.str "1"), ("c_downloaded", Val.str "22"),
     ("d_downloaded", Val.str "333"), ("e_downloaded", Val.str "4444"),
     ("a-home", Val.str "x"), ("a-assignments", Val.str "x"), ("a-extras", Val.str "x"),
     ("b-home", Val.str "x"), ("b-assignments", Val.str "x"), ("b-extras", Val.str "x"),
     ("c-home", Val.str "x"), ("c-assignments", Val.str "x"), ("c-extras", Val.str "x"),
     ("d-home", Val.str "x"), ("d-assignments", Val.str "x"), ("d-extras", Val.str "x"),
     ("e-home", Val.str "x"), ("e-assignments", Val.str "x"), ("e-extras", Val.str "x")]
    ["a", "b", "c", "d", "e"]
  exact (h.1 "b" (by decide) (by decide)).1 "home" (by decide)

/-- Counterexample to C4 as stated: in the scenario of `c4store`, theme
`x` is fully downloaded in the store but not tracked in the downloaded
set, and it holds the oldest Download Record, so under the claim it is
not among the retained themes and should have been deleted.  The
cleanup iterates only the tracked set: after `evict()` four distinct
themes (`a`, `b`, `c`, `x`) remain downloaded — more than the claimed
bound of 3 — and the non-retained theme `x` keeps both its Stored
Assets and its Download Record. -/
theorem cleanup_unbounded_cex :
    ((["a", "b", "c", "x"].filter (fun t =>
        isThemeDownloaded (cleanupUnusedThemes c4dateVal c4store c4dl).1 t)).length = 4) ∧
    ((cleanupUnusedThemes c4dateVal c4store c4dl).1).get ("x" ++ "_downloaded") =
      some (Val.str "1") ∧
    ((cleanupUnusedThemes c4dateVal c4store c4dl).1).get ("x" ++ "-" ++ "home") =
      some (Val.str "y") := by
  decide

/-! ## C2: downloaded-observability versus the timestamp key -/

theorem length_pos_of_ne_empty {s : String} (h : s ≠ "") : 0 < s.length := by
  rcases Nat.eq_zero_or_pos s.length with h0 | hp
  · exact absurd (String.ext (List.length_eq_zero.mp h0)) h
  · exact hp

theorem cssFetchResult_ne_empty {fo : FetchOutcome} {css : String}
    (h : cssFetchResult fo = some css) : css ≠ "" := by
  cases fo with
  | failure => exact absurd h (by simp [cssFetchResult])
  | success body =>
    unfold cssFetchResult at h
    dsimp only at h
    by_cases hc : body = "" ∨ (jsTrim body).length < 10
    · rw [if_pos hc] at h
      exact absurd h (by simp)
    · rw [if_neg hc] at h
      have hb : body = css := by simpa using h
      intro hcss
      exact hc (Or.inl (hb.trans hcss))

theorem downloaded_congr {st st' : Store} (t : String)
    (h : ∀ c ∈ REQUIRED_THEME_FILES, st'.get (t ++ "-" ++ c) = st.get (t ++ "-" ++ c)) :
    isThemeDownloaded st' t = isThemeDownloaded st t := by
  unfold isThemeDownloaded
  simp only [REQUIRED_THEME_FILES, List.all_cons, List.all_nil]
  rw [h "home" (by decide), h "assignments" (by decide), h "extras" (by decide)]

theorem downloaded_set_str {st : Store} {t : String} (k : String) {css : String}
    (hcss : css ≠ "") (hd : isThemeDownloaded st t = true) :
    isThemeDownloaded (st.set k (Val.str css)) t = true := by
  unfold isThemeDownloaded at hd ⊢
  rw [List.all_eq_true] at hd ⊢
  intro x hx
  by_cases hk : t ++ "-" ++ x = k
  · rw [hk, get_set_self]
    simpa using length_pos_of_ne_empty hcss
  · rw [get_set_ne _ _ hk]
    exact hd x hx

theorem downloaded_storeResults_preserve (tid : String) :
    ∀ (results : List (String × Option String)) (st : Store) (t : String),
      (∀ p ∈ results, ∀ css, p.2 = some css → css ≠ "") →
      isThemeDownloaded st t = true →
      isThemeDownloaded (storeResults tid st results) t = true := by
  intro results
  induction results with
  | nil => intro st t hv hd; exact hd
  | cons p rest ih =>
    intro st t hv hd
    obtain ⟨ft, r⟩ := p
    cases r with
    | none =>
      simp only [storeResults]
      exact ih st t (fun q hq => hv q (List.mem_cons_of_mem _ hq)) hd
    | some css =>
      simp only [storeResults]
      refine ih _ t (fun q hq => hv q (List.mem_cons_of_mem _ hq)) ?_
      exact downloaded_set_str _ (hv (ft, some css) (List.mem_cons_self _ _) css rfl) hd

theorem downloadResults_valid (tid : String) (fetch : String → FetchOutcome) :
    ∀ p ∈ downloadResults tid fetch, ∀ css, p.2 = some css → css ≠ "" := by
  intro p hp css hcss
  unfold downloadResults at hp
  rcases List.mem_map.mp hp with ⟨a, ha, heq⟩
  have hp2 : p.2 = cssFetchResult (fetch (buildGitHubUrl tid a)) := by rw [heq.symm]
  exact cssFetchResult_ne_empty (hp2.symm.trans hcss)

theorem themeKeys_not_mem_of_ne {t tid : String} (hne : t ≠ tid) {c : String}
    (hc : c ∈ REQUIRED_THEME_FILES) :
    t ++ "-" ++ c ∉
      REQUIRED_THEME_FILES.map (fun ft => tid ++ "-" ++ ft) ++ [tid ++ "_downloaded"] := by
  intro hmem
  rcases List.mem_append.mp hmem with h1 | h2
  · rcases List.mem_map.mp h1 with ⟨c', hc', hkeq⟩
    exact hne (cssKey_inj hc hc' hkeq.symm).1
  · exact (cssKey_ne_tsKey hc) (List.mem_singleton.mp h2)

theorem tsKey_not_mem_of_ne {t tid : String} (hne : t ≠ tid) :
    t ++ "_downloaded" ∉
      REQUIRED_THEME_FILES.map (fun ft => tid ++ "-" ++ ft) ++ [tid ++ "_downloaded"] := by
  intro hmem
  rcases List.mem_append.mp hmem with h1 | h2
  · rcases List.mem_map.mp h1 with ⟨c', hc', hkeq⟩
    exact (cssKey_ne_tsKey hc') hkeq
  · exact hne (tsKey_inj (List.mem_singleton.mp h2))

/-- Each program operation preserves the invariant that a present
`{t}_downloaded` key implies the three CSS keys are present and
non-empty. -/
theorem inv_preserved (op : Op) (s : PState)
    (hinv : ∀ u, (s.store.get (u ++ "_downloaded")).isSome = true →
      isThemeDownloaded s.store u = true) :
    ∀ u, ((applyOp s op).store.get (u ++ "_downloaded")).isSome = true →
      isThemeDownloaded (applyOp s op).store u = true := by
  cases op with
  | syncDl tids => exact hinv
  | setTheme tid =>
    intro u hu
    dsimp only [applyOp] at hu ⊢
    rw [get_set_ne _ _ (tsKey_ne_reserved (Or.inl rfl))] at hu
    rw [downloaded_congr u (fun c hc => get_set_ne _ _ (cssKey_ne_reserved hc (Or.inl rfl)))]
    exact hinv u hu
  | refresh dirResult fileOracle now =>
    intro u hu
    dsimp only [applyOp] at hu ⊢
    cases dirResult with
    | none => exact hinv u hu
    | some dirs =>
      unfold fetchThemesList at hu ⊢
      dsimp only at hu ⊢
      cases hpd : processDirs fileOracle dirs with
      | none =>
        rw [hpd] at hu
        dsimp only at hu ⊢
        exact hinv u hu
      | some configs =>
        rw [hpd] at hu
        dsimp only at hu ⊢
        rw [get_set_ne _ _ (tsKey_ne_reserved (Or.inr (Or.inr rfl))),
          get_set_ne _ _ (tsKey_ne_reserved (Or.inr (Or.inl rfl)))] at hu
        rw [downloaded_congr u (fun c hc =>
          (get_set_ne _ _ (cssKey_ne_reserved hc (Or.inr (Or.inr rfl)))).trans
            (get_set_ne _ _ (cssKey_ne_reserved hc (Or.inr (Or.inl rfl)))))]
        exact hinv u hu
  | remove tid =>
    intro u hu
    dsimp only [applyOp] at hu ⊢
    unfold removeTheme at hu ⊢
    by_cases hact : s.store.get "theme" = some (Val.str tid)
    · rw [if_pos hact] at hu ⊢
      exact hinv u hu
    · rw [if_neg hact] at hu ⊢
      dsimp only at hu ⊢
      by_cases hut : u = tid
      · subst hut
        rw [get_removeKeys_mem _ (List.mem_append.mpr (Or.inr (List.mem_singleton.mpr rfl)))]
          at hu
        simp at hu
      · rw [get_removeKeys_not_mem _ (tsKey_not_mem_of_ne hut)] at hu
        rw [downloaded_congr u (fun c hc =>
          get_removeKeys_not_mem _ (themeKeys_not_mem_of_ne hut hc))]
        exact hinv u hu
  | cleanup dateVal =>
    intro u hu
    dsimp only [applyOp] at hu ⊢
    rw [cleanup_get] at hu
    by_cases hcond : ∃ t ∈ s.dl,
        ¬(some t = activeTheme s.store ∨ t ∈ keptRecent dateVal s.store s.dl) ∧
        (u ++ "_downloaded" ∈ REQUIRED_THEME_FILES.map (fun c => t ++ "-" ++ c) ∨
          u ++ "_downloaded" = t ++ "_downloaded")
    · rw [if_pos hcond] at hu
      simp at hu
    · rw [if_neg hcond] at hu
      rw [downloaded_congr u (fun c hc => ?_)]
      · exact hinv u hu
      · rw [cleanup_get]
        rw [if_neg ?_]
        rintro ⟨t, ht, hnk, hkey⟩
        rcases hkey with h1 | h2
        · rcases List.mem_map.mp h1 with ⟨c', hc', hkeq⟩
          have hut : u = t := (cssKey_inj hc hc' hkeq.symm).1
          exact hcond ⟨t, ht, hnk, Or.inr (by rw [hut])⟩
        · exact (cssKey_ne_tsKey hc) h2
  | download config tid fetch ts =>
    intro u hu
    dsimp only [applyOp] at hu ⊢
    unfold downloadTheme at hu ⊢
    cases hl : List.lookup tid config with
    | none =>
      rw [hl] at hu
      dsimp only at hu ⊢
      exact hinv u hu
    | some cfg =>
      rw [hl] at hu
      dsimp only at hu ⊢
      by_cases hall : (downloadResults tid fetch).all (fun p => p.2.isSome) = true
      · rw [if_pos hall] at hu ⊢
        dsimp only at hu ⊢
        have hsucc : ∀ c ∈ REQUIRED_THEME_FILES, ∃ b,
            cssFetchResult (fetch (buildGitHubUrl tid c)) = some b := by
          intro c hc
          rw [List.all_eq_true] at hall
          have hm := hall (c, cssFetchResult (fetch (buildGitHubUrl tid c)))
            (by
              unfold downloadResults
              have := List.mem_map_of_mem
                (fun ft => (ft, cssFetchResult (fetch (buildGitHubUrl tid ft)))) hc
              simpa using this)
          exact Option.isSome_iff_exists.mp hm
        have hmapfst : ((downloadResults tid fetch).map (fun p => p.1)).Nodup := by
          have hmapeq : ((downloadResults tid fetch).map (fun p => p.1)) =
              REQUIRED_THEME_FILES := by
            unfold downloadResults
            rw [List.map_map]
            exact (List.map_congr_left (fun x _ => rfl)).trans (List.map_id _)
          rw [hmapeq]
          decide
        have hdl_tid : isThemeDownloaded
            (storeResults tid s.store (downloadResults tid fetch)) tid = true := by
          unfold isThemeDownloaded
          rw [List.all_eq_true]
          intro x hx
          obtain ⟨b, hb⟩ := hsucc x hx
          have hmem : (x, some b) ∈ downloadResults tid fetch := by
            unfold downloadResults
            have := List.mem_map_of_mem
              (fun ft => (ft, cssFetchResult (fetch (buildGitHubUrl tid ft)))) hx
            dsimp only at this
            rw [hb] at this
            exact this
          rw [get_storeResults_some tid (downloadResults tid fetch) s.store x b hmem hmapfst]
          simpa using length_pos_of_ne_empty (cssFetchResult_ne_empty hb)
        by_cases hut : u = tid
        · subst hut
          rw [downloaded_congr u (fun c hc =>
            get_set_ne _ _ (cssKey_ne_tsKey hc))]
          exact hdl_tid
        · rw [get_set_ne _ _ (fun h => hut (tsKey_inj h))] at hu
          rw [get_storeResults_other tid _ _ _ (fun p hp => ?_)] at hu
          · rw [downloaded_congr u (fun c hc =>
              get_set_ne _ _ (cssKey_ne_tsKey hc))]
            exact downloaded_storeResults_preserve tid (downloadResults tid fetch) s.store u
              (downloadResults_valid tid fetch) (hinv u hu)
          · unfold downloadResults at hp
            rcases List.mem_map.mp hp with ⟨a, ha, heq⟩
            have hp1 : p.1 = a := by rw [heq.symm]
            rw [hp1]
            exact Ne.symm (cssKey_ne_tsKey ha)
      · rw [if_neg hall] at hu ⊢
        dsimp only at hu ⊢
        rw [get_storeResults_other tid _ _ _ (fun p hp => ?_)] at hu
        · exact downloaded_storeResults_preserve tid (downloadResults tid fetch) s.store u
            (downloadResults_valid tid fetch) (hinv u hu)
        · unfold downloadResults at hp
          rcases List.mem_map.mp hp with ⟨a, ha, heq⟩
          have hp1 : p.1 = a := by rw [heq.symm]
          rw [hp1]
          exact Ne.symm (cssKey_ne_tsKey ha)

/-- Counterexample to C2 as stated: two partial downloads of theme `a`
(the first stores only `home`, the second stores `assignments` and
`extras`) reach a store in which `isThemeDownloaded "a"` is true while
the Download Record key `a_downloaded` was never written. -/
theorem ts_observability_cex :
    isThemeDownloaded
      (runOps
        [Op.download [("a", mkThemeConfig "a"
            [("home", "a-theme-home.css"), ("assignments", "a-theme-assignments.css"),
             ("extras", "a-theme-extras.css")])]
          "a"
          (fun url => if url = buildGitHubUrl "a" "home"
            then FetchOutcome.success "samplecssbodytextcc" else FetchOutcome.failure)
          "t1",
         Op.download [("a", mkThemeConfig "a"
            [("home", "a-theme-home.css"), ("assignments", "a-theme-assignments.css"),
             ("extras", "a-theme-extras.css")])]
          "a"
          (fun url => if url = buildGitHubUrl "a" "home"
            then FetchOutcome.failure else FetchOutcome.success "samplecssbodytextcc")
          "t2"]).store "a" = true ∧
    ((runOps
        [Op.download [("a", mkThemeConfig "a"
            [("home", "a-theme-home.css"), ("assignments", "a-theme-assignments.css"),
             ("extras", "a-theme-extras.css")])]
          "a"
          (fun url => if url = buildGitHubUrl "a" "home"
            then FetchOutcome.success "samplecssbodytextcc" else FetchOutcome.failure)
          "t1",
         Op.download [("a", mkThemeConfig "a"
            [("home", "a-theme-home.css"), ("assignments", "a-theme-assignments.css"),
             ("extras", "a-theme-extras.css")])]
          "a"
          (fun url => if url = buildGitHubUrl "a" "home"
            then FetchOutcome.failure else FetchOutcome.success "samplecssbodytextcc")
          "t2"]).store).get ("a" ++ "_downloaded") = none := by
  constructor
  · decide
  · decide

/-- C2 amended: the converse visibility invariant the code's write
ordering actually guarantees — in every store state reachable by the
program's operations, if the Download Record key `{t}_downloaded`
exists, then `isThemeDownloaded(t)` returns true (assets are always in
place no later than the timestamp). -/
theorem runOps_ts_implies_downloaded (ops : List Op) (t : String)
    (h : (((runOps ops).store).get (t ++ "_downloaded")).isSome = true) :
    isThemeDownloaded (runOps ops).store t = true := by
  have hgen : ∀ (l : List Op) (s : PState),
      (∀ u, (s.store.get (u ++ "_downloaded")).isSome = true →
        isThemeDownloaded s.store u = true) →
      ∀ u, (((l.foldl applyOp s).store.get (u ++ "_downloaded")).isSome = true →
        isThemeDownloaded ((l.foldl applyOp s).store) u = true) := by
    intro l
    induction l with
    | nil => intro s hs; exact hs
    | cons op rest ih =>
      intro s hs
      exact ih (applyOp s op) (inv_preserved op s hs)
  exact hgen ops initState (fun u hu => by simp [initState, Store.get] at hu) t h

/-- Witness for the amended C2: after one fully successful download of
theme `a`, the timestamp key is present and the theme is observed as
downloaded. -/
theorem runOps_ts_implies_downloaded_w :
    isThemeDownloaded
      (runOps
        [Op.download [("a", mkThemeConfig "a"
            [("home", "a-theme-home.css"), ("assignments", "a-theme-assignments.css"),
             ("extras", "a-theme-extras.css")])]
          "a" (fun _ => FetchOutcome.success "samplecssbodytextcc") "t1"]).store "a" = true :=
  runOps_ts_implies_downloaded
    [Op.download [("a", mkThemeConfig "a"
        [("home", "a-theme-home.css"), ("assignments", "a-theme-assignments.css"),
         ("extras", "a-theme-extras.css")])]
      "a" (fun _ => FetchOutcome.success "samplecssbodytextcc") "t1"] "a" (by decide)

end BetterPortal
